import Mathlib

/-!
Shallow embedding of `src/mbtool/utilities.cpp` from DualBootPatcher:
device-database matching (`get_device`), ROM switching
(`utilities_switch_rom`), aroma-config template substitution
(`generate_aroma_config`) and the installer-archive builder
(`AromaGenerator`).  External collaborators (OS property store, device
JSON parser, ROM registry, switch engine, filesystem, minizip) are
parameters of the embedding; their results are explicit arguments.
-/

set_option maxRecDepth 16384

namespace DBP

/-! ### String replacement

`util::replace_all` lives in mbutil, outside the files embedded here. -/

/-- `listStartsWith pat s` is true when `pat` is an initial segment of `s`. -/
def listStartsWith : List Char → List Char → Bool
  | [], _ => true
  | _ :: _, [] => false
  | a :: pat, b :: s => a == b && listStartsWith pat s

/-- Fuel-indexed scanner for literal replacement.  At each position, if the
(nonempty) pattern starts here the replacement is emitted and the scan resumes
after the matched occurrence; otherwise one character is copied.  The fuel is
always instantiated with the length of the scanned list, which suffices
because every step consumes at least one character. -/
def replaceAllAux (pat repl : List Char) : Nat → List Char → List Char
  | _, [] => []
  | 0, s => s
  | fuel + 1, c :: rest =>
    if !pat.isEmpty && listStartsWith pat (c :: rest) then
      repl ++ replaceAllAux pat repl fuel ((c :: rest).drop pat.length)
    else
      c :: replaceAllAux pat repl fuel rest

/-- Modelled from the spec: `util::replace_all` (mbutil, not under `src/`),
described as an ordered sequence of literal (non-pattern) global
replacements — left to right, non-overlapping, the replacement text is not
rescanned.  All patterns used by the embedded code are nonempty. -/
def replace_all (s pat repl : String) : String :=
  String.mk (replaceAllAux pat.data repl.data s.data.length s.data)

/-- Decidable occurrence check: does `pat` start at some position of `s`? -/
def occursIn (pat s : List Char) : Bool :=
  (List.range (s.length + 1)).any (fun i => listStartsWith pat (s.drop i))

theorem listStartsWith_nil (pat : List Char) (h : listStartsWith pat [] = false) :
    pat ≠ [] := by
  intro he
  subst he
  simp [listStartsWith] at h

theorem replaceAllAux_of_no_match (pat repl : List Char)
    (fuel : Nat) (s : List Char)
    (h : ∀ i, listStartsWith pat (s.drop i) = false) :
    replaceAllAux pat repl fuel s = s := by
  induction fuel generalizing s with
  | zero =>
    cases s with
    | nil => rfl
    | cons c rest => rfl
  | succ fuel ih =>
    cases s with
    | nil => rfl
    | cons c rest =>
      have h0 : listStartsWith pat (c :: rest) = false := by
        have := h 0
        simpa using this
      have hrest : ∀ i, listStartsWith pat (rest.drop i) = false := by
        intro i
        have := h (i + 1)
        simpa [List.drop_succ_cons] using this
      simp [replaceAllAux, h0, ih rest hrest]

theorem no_match_of_occursIn_false (pat s : List Char)
    (h : occursIn pat s = false) :
    ∀ i, listStartsWith pat (s.drop i) = false := by
  intro i
  have hall : ∀ j ∈ List.range (s.length + 1),
      listStartsWith pat (s.drop j) = false := by
    intro j hj
    have := List.any_eq_false.mp h
    simpa using this j hj
  by_cases hle : i ≤ s.length
  · exact hall i (List.mem_range.mpr (Nat.lt_succ_of_le hle))
  · have hdrop : s.drop i = [] :=
      List.drop_eq_nil_of_le (Nat.le_of_lt (Nat.lt_of_not_le hle))
    have hlen : s.drop s.length = [] := List.drop_eq_nil_of_le (Nat.le_refl _)
    have := hall s.length (List.mem_range.mpr (Nat.lt_succ_self _))
    rw [hlen] at this
    rw [hdrop]
    exact this

/-- A replacement whose pattern never occurs leaves the string unchanged. -/
theorem replace_all_id (s pat repl : String)
    (h : occursIn pat.data s.data = false) :
    replace_all s pat repl = s := by
  unfold replace_all
  rw [replaceAllAux_of_no_match pat.data repl.data s.data.length s.data
        (no_match_of_occursIn_false pat.data s.data h)]

/-! ### Device model and matching (`get_device`) -/

/-- Embeds `mb::device::Device` as used by `utilities.cpp`: codename list,
ordered boot block-device candidate paths, block-device base directories.
The field `validate` records the truthiness of `Device::validate()` in the
source, i.e. `validate = true` means the device reports validation-failure
flags (the loop logs "Skipping invalid device" exactly in that case). -/
structure Device where
  codenames : List String
  boot_block_devs : List String
  block_dev_base_dirs : List String
  validate : Bool
deriving DecidableEq

/-- The `std::find_if` predicate over a device codename list in
`get_device`: some codename equals `ro.product.device` or
`ro.build.product`. -/
def device_matches (prop_product_device prop_build_product : String)
    (d : Device) : Bool :=
  d.codenames.any (fun item =>
    item == prop_product_device || item == prop_build_product)

/-- The device-matching loop of `get_device` in `utilities.cpp`, applied to
an already parsed device list: skip devices whose `validate()` is truthy,
return the first remaining device with a matching codename, `none` when the
list is exhausted. -/
def get_device : List Device → String → String → Option Device
  | [], _, _ => none
  | d :: rest, p1, p2 =>
    if d.validate then
      get_device rest p1 p2
    else if device_matches p1 p2 d then
      some d
    else
      get_device rest p1 p2

theorem device_matches_iff (p1 p2 : String) (d : Device) :
    device_matches p1 p2 d = true ↔ p1 ∈ d.codenames ∨ p2 ∈ d.codenames := by
  unfold device_matches
  rw [List.any_eq_true]
  constructor
  · rintro ⟨x, hx, hor⟩
    rcases Bool.or_eq_true_iff.mp hor with h | h
    · exact Or.inl (by rwa [beq_iff_eq.mp h] at hx)
    · exact Or.inr (by rwa [beq_iff_eq.mp h] at hx)
  · rintro (h | h)
    · exact ⟨p1, h, by simp⟩
    · exact ⟨p2, h, by simp⟩

theorem get_device_validate_false (devices : List Device) (p1 p2 : String)
    (d : Device) (h : get_device devices p1 p2 = some d) :
    d.validate = false := by
  induction devices with
  | nil => simp [get_device] at h
  | cons e rest ih =>
    by_cases hv : e.validate
    · exact ih (by simpa [get_device, hv] using h)
    · by_cases hm : device_matches p1 p2 e
      · have : some e = some d := by simpa [get_device, hv, hm] using h
        cases this
        exact Bool.eq_false_iff.mpr hv
      · exact ih (by simpa [get_device, hv, hm] using h)

/-- C1: for every successfully parsed device list and runtime identity pair,
`get_device` returns the first device in document order that passes internal
validation and whose codename set contains one of the two identity strings
(everything before it fails validation or fails to match), and returns
`none` exactly when no device in the whole list qualifies. -/
theorem get_device_first_match_spec (devices : List Device) (p1 p2 : String) :
    (∀ d, get_device devices p1 p2 = some d →
      d.validate = false ∧ (p1 ∈ d.codenames ∨ p2 ∈ d.codenames) ∧
      ∃ pre post, devices = pre ++ d :: post ∧
        ∀ e ∈ pre, ¬(e.validate = false ∧
          (p1 ∈ e.codenames ∨ p2 ∈ e.codenames)))
    ∧ (get_device devices p1 p2 = none ↔
      ∀ d ∈ devices, ¬(d.validate = false ∧
        (p1 ∈ d.codenames ∨ p2 ∈ d.codenames))) := by
  constructor
  · intro d h
    refine ⟨get_device_validate_false devices p1 p2 d h, ?_⟩
    induction devices with
    | nil => simp [get_device] at h
    | cons e rest ih =>
      by_cases hv : e.validate
      · have h' : get_device rest p1 p2 = some d := by
          simpa [get_device, hv] using h
        obtain ⟨hmem, pre, post, hsplit, hpre⟩ := ih h'
        refine ⟨hmem, e :: pre, post, by simp [hsplit], ?_⟩
        intro x hx
        rcases List.mem_cons.mp hx with rfl | hx'
        · rintro ⟨hfalse, -⟩
          rw [hv] at hfalse
          cases hfalse
        · exact hpre x hx'
      · by_cases hm : device_matches p1 p2 e
        · have heq : some e = some d := by simpa [get_device, hv, hm] using h
          injection heq with heq
          subst heq
          exact ⟨(device_matches_iff p1 p2 e).mp hm, [], rest, rfl, by simp⟩
        · have h' : get_device rest p1 p2 = some d := by
            simpa [get_device, hv, hm] using h
          obtain ⟨hmem, pre, post, hsplit, hpre⟩ := ih h'
          refine ⟨hmem, e :: pre, post, by simp [hsplit], ?_⟩
          intro x hx
          rcases List.mem_cons.mp hx with rfl | hx'
          · rintro ⟨-, hcn⟩
            exact hm ((device_matches_iff p1 p2 x).mpr hcn)
          · exact hpre x hx'
  · induction devices with
    | nil => simp [get_device]
    | cons e rest ih =>
      by_cases hv : e.validate
      · simp only [get_device, hv, if_pos]
        rw [ih]
        constructor
        · intro hall d hd
          rcases List.mem_cons.mp hd with rfl | hd'
          · rintro ⟨hfalse, -⟩
            rw [hv] at hfalse
            cases hfalse
          · exact hall d hd'
        · intro hall d hd
          exact hall d (List.mem_cons_of_mem e hd)
      · by_cases hm : device_matches p1 p2 e
        · simp only [get_device, hv, if_neg, if_pos, hm]
          constructor
          · intro hfalse
            cases hfalse
          · intro hall
            exact absurd ⟨Bool.eq_false_iff.mpr hv,
              (device_matches_iff p1 p2 e).mp hm⟩ (hall e (by simp))
        · simp only [get_device, hv, hm, if_false, Bool.not_eq_true,
            Bool.false_eq_true, if_neg]
          rw [ih]
          constructor
          · intro hall d hd
            rcases List.mem_cons.mp hd with rfl | hd'
            · rintro ⟨-, hcn⟩
              exact hm ((device_matches_iff p1 p2 d).mpr hcn)
            · exact hall d hd'
          · intro hall d hd
            exact hall d (List.mem_cons_of_mem e hd)

/-- Witness for C1 at a concrete input: a single invalid device is never
matched, so matching fails. -/
theorem get_device_first_match_spec_witness :
    get_device [⟨["hammerhead"], ["/dev/a"], ["/dev"], true⟩] "hammerhead"
      "bullhead" = none :=
  (get_device_first_match_spec
    [⟨["hammerhead"], ["/dev/a"], ["/dev"], true⟩] "hammerhead"
    "bullhead").2.mpr (by decide)

/-- C2: a device failing internal validation is skipped non-fatally — the
returned device always passes validation, and an invalid device at the head
of the list leaves the result of matching the remaining devices unchanged,
even when the invalid device's codename set contains an identity string. -/
theorem get_device_skips_invalid (p1 p2 : String) :
    (∀ devices d, get_device devices p1 p2 = some d → d.validate = false)
    ∧ (∀ d devices, d.validate = true →
        get_device (d :: devices) p1 p2 = get_device devices p1 p2) := by
  constructor
  · intro devices d h
    exact get_device_validate_false devices p1 p2 d h
  · intro d devices hv
    simp [get_device, hv]

/-- Witness for C2 at a concrete input: an invalid device whose codename
matches the identity is skipped and the next matching valid device wins. -/
theorem get_device_skips_invalid_witness :
    get_device [⟨["shamu"], [], [], true⟩, ⟨["shamu"], [], [], false⟩]
      "shamu" "moto" = some ⟨["shamu"], [], [], false⟩ :=
  ((get_device_skips_invalid "shamu" "moto").2 ⟨["shamu"], [], [], true⟩
    [⟨["shamu"], [], [], false⟩] rfl).trans (by decide)

/-! ### ROM switching (`utilities_switch_rom`) -/

/-- `S_IFMT`, the file-type mask of `st_mode` (octal `0170000`). -/
def S_IFMT : Nat := 0o170000

/-- `S_IFBLK`, the block-special file type (octal `060000`). -/
def S_IFBLK : Nat := 0o60000

/-- `S_ISBLK(m)` from `<sys/stat.h>`: `(m & S_IFMT) == S_IFBLK`. -/
def S_ISBLK (mode : Nat) : Bool := (mode &&& S_IFMT) == S_IFBLK

/-- The `std::find_if` predicate over boot-device candidates in
`utilities_switch_rom`: `stat(path)` succeeds and the mode is
block-special.  The filesystem is a parameter `stat` mapping a path to
`some st_mode` on success and `none` on failure. -/
def stat_is_blk (stat : String → Option Nat) (path : String) : Bool :=
  match stat path with
  | some mode => S_ISBLK mode
  | none => false

/-- `std::find_if` over the candidate list: first path whose `stat`
succeeds with a block-special mode. -/
def find_boot_dev (stat : String → Option Nat) : List String → Option String
  | [] => none
  | p :: rest =>
    if stat_is_blk stat p then some p else find_boot_dev stat rest

/-- The `SwitchRomResult` enumeration from `switcher.h`. -/
inductive SwitchRomResult where
  | Succeeded
  | Failed
  | ChecksumInvalid
  | ChecksumNotFound
deriving DecidableEq, BEq

/-- The argument tuple handed to the external switch engine
(`switch_rom(rom_id, *it, device.block_dev_base_dirs(), force)`). -/
structure SwitchCall where
  rom_id : String
  boot_dev : String
  block_dev_base_dirs : List String
  force : Bool
deriving DecidableEq

/-- `utilities_switch_rom` from `utilities.cpp`.  `devices_file = none`
embeds a missing `--devices` path; `some none` embeds a file whose read or
JSON parse failed inside `get_device`; `some (some devices)` is a parsed
device list.  The returned pair is the boolean result together with the
call made to the external switch engine, `none` when the engine was never
invoked. -/
def utilities_switch_rom (engine : SwitchCall → SwitchRomResult)
    (stat : String → Option Nat)
    (prop_product_device prop_build_product : String)
    (devices_file : Option (Option (List Device)))
    (rom_id : String) (force : Bool) : Bool × Option SwitchCall :=
  match devices_file with
  | none => (false, none)
  | some none => (false, none)
  | some (some devices) =>
    match get_device devices prop_product_device prop_build_product with
    | none => (false, none)
    | some device =>
      match find_boot_dev stat device.boot_block_devs with
      | none => (false, none)
      | some bdev =>
        let call : SwitchCall :=
          ⟨rom_id, bdev, device.block_dev_base_dirs, force⟩
        (engine call == SwitchRomResult.Succeeded, some call)

theorem find_boot_dev_some (stat : String → Option Nat) (devs : List String)
    (p : String) (h : find_boot_dev stat devs = some p) :
    stat_is_blk stat p = true ∧
    ∃ pre post, devs = pre ++ p :: post ∧
      ∀ q ∈ pre, stat_is_blk stat q = false := by
  induction devs with
  | nil => simp [find_boot_dev] at h
  | cons q rest ih =>
    by_cases hq : stat_is_blk stat q
    · have heq : some q = some p := by simpa [find_boot_dev, hq] using h
      injection heq with heq
      subst heq
      exact ⟨hq, [], rest, rfl, by simp⟩
    · have h' : find_boot_dev stat rest = some p := by
        simpa [find_boot_dev, hq] using h
      obtain ⟨hp, pre, post, hsplit, hpre⟩ := ih h'
      refine ⟨hp, q :: pre, post, by simp [hsplit], ?_⟩
      intro x hx
      rcases List.mem_cons.mp hx with rfl | hx'
      · exact Bool.eq_false_iff.mpr hq
      · exact hpre x hx'

theorem find_boot_dev_none (stat : String → Option Nat) (devs : List String) :
    find_boot_dev stat devs = none ↔
      ∀ p ∈ devs, stat_is_blk stat p = false := by
  induction devs with
  | nil => simp [find_boot_dev]
  | cons q rest ih =>
    by_cases hq : stat_is_blk stat q
    · simp [find_boot_dev, hq]
    · simp only [find_boot_dev, hq, if_false, Bool.not_eq_true,
        Bool.false_eq_true, if_neg]
      rw [ih]
      constructor
      · intro hall p hp
        rcases List.mem_cons.mp hp with rfl | hp'
        · exact Bool.eq_false_iff.mpr hq
        · exact hall p hp'
      · intro hall p hp
        exact hall p (List.mem_cons_of_mem q hp)

/-- C3: given a matched device, the switch selects the first boot-device
candidate (in list order) whose `stat` succeeds with a block-special mode,
and hands exactly that path to the switch engine; when no candidate
qualifies the operation fails with no engine invocation, and it fails that
way precisely when every candidate fails the test. -/
theorem switch_rom_selects_first_block_dev
    (engine : SwitchCall → SwitchRomResult) (stat : String → Option Nat)
    (p1 p2 rom_id : String) (force : Bool)
    (devices : List Device) (d : Device)
    (hdev : get_device devices p1 p2 = some d) :
    (∀ p, find_boot_dev stat d.boot_block_devs = some p →
      utilities_switch_rom engine stat p1 p2 (some (some devices)) rom_id
          force
        = (engine ⟨rom_id, p, d.block_dev_base_dirs, force⟩
            == SwitchRomResult.Succeeded,
           some ⟨rom_id, p, d.block_dev_base_dirs, force⟩)
      ∧ (∃ m, stat p = some m ∧ S_ISBLK m = true)
      ∧ ∃ pre post, d.boot_block_devs = pre ++ p :: post ∧
          ∀ q ∈ pre, stat_is_blk stat q = false)
    ∧ (find_boot_dev stat d.boot_block_devs = none →
      utilities_switch_rom engine stat p1 p2 (some (some devices)) rom_id
          force = (false, none))
    ∧ (find_boot_dev stat d.boot_block_devs = none ↔
      ∀ p ∈ d.boot_block_devs, stat_is_blk stat p = false) := by
  refine ⟨?_, ?_, find_boot_dev_none stat d.boot_block_devs⟩
  · intro p hp
    obtain ⟨hblk, hsplit⟩ := find_boot_dev_some stat d.boot_block_devs p hp
    refine ⟨?_, ?_, hsplit⟩
    · simp [utilities_switch_rom, hdev, hp]
    · unfold stat_is_blk at hblk
      cases hstat : stat p with
      | none => rw [hstat] at hblk; cases hblk
      | some m => rw [hstat] at hblk; exact ⟨m, rfl, hblk⟩
  · intro hp
    simp [utilities_switch_rom, hdev, hp]

/-- Witness for C3 at the concrete input of spec §8: candidates
`[A, B, C]` where only `C` exists and is block-special select `C`. -/
theorem switch_rom_selects_first_block_dev_witness :
    utilities_switch_rom (fun _ => SwitchRomResult.Succeeded)
      (fun q => if q = "C" then some 0o60644 else none) "x" "y"
      (some (some [⟨["x"], ["A", "B", "C"], ["/dev/block"], false⟩]))
      "rom1" false
      = (true, some ⟨"rom1", "C", ["/dev/block"], false⟩) :=
  (((switch_rom_selects_first_block_dev
      (fun _ => SwitchRomResult.Succeeded)
      (fun q => if q = "C" then some 0o60644 else none) "x" "y" "rom1" false
      [⟨["x"], ["A", "B", "C"], ["/dev/block"], false⟩]
      ⟨["x"], ["A", "B", "C"], ["/dev/block"], false⟩
      (by decide)).1 "C" (by decide)).1).trans (by decide)

/-! ### Aroma-config template substitution (`generate_aroma_config`) -/

/-- An installed ROM as enumerated by `Roms::add_installed`: identifier and
configuration-file path. -/
structure Rom where
  id : String
  config_path : String
deriving DecidableEq

/-- The part of `RomConfig` read here: the declared name. -/
structure RomConfig where
  name : String
deriving DecidableEq

/-- Ambient inputs of `generate_aroma_config`, all supplied by external
collaborators: tool version, the installed-ROM list in discovery order, the
result of `RomConfig::load_file` per path (`none` when loading fails), and
the four mount points queried from the ROM registry. -/
structure AromaCtx where
  version : String
  roms : List Rom
  load_config : String → Option RomConfig
  system_partition : String
  cache_partition : String
  data_partition : String
  extsd_partition : String

/-- The per-ROM display name in `generate_aroma_config`: start from
`rom->id`, overwrite with `config.name` when `load_file` succeeds and the
loaded name is nonempty. -/
def rom_display_name (ctx : AromaCtx) (rom : Rom) : String :=
  match ctx.load_config rom.config_path with
  | some config => if config.name = "" then rom.id else config.name
  | none => rom.id

/-- One `@ROM_MENU_ITEMS@` line, from the
`format("\"%s\", \"\", \"@default\",\n", ...)` call. -/
def rom_menu_item (name : String) : String :=
  "\"" ++ name ++ "\", \"\", \"@default\",\n"

/-- One `@ROM_SELECTION_ITEMS@` block, from the `format` call comparing
`prop("operations.prop", "selected")` against `i + 2 + 1`. -/
def rom_selection_item (i : Nat) (rom_id name : String) : String :=
  "if prop(\"operations.prop\", \"selected\") == \""
    ++ Nat.repr (i + 2 + 1) ++ "\" then\n    setvar(\"romid\", \""
    ++ rom_id ++ "\");\n    setvar(\"romname\", \""
    ++ name ++ "\");\nendif;\n"

/-- The accumulation loop over `roms.roms` building `rom_menu_items` and
`rom_selection_items` by repeated `+=`. -/
def rom_items (ctx : AromaCtx) : String × String :=
  ctx.roms.enum.foldl
    (fun acc p =>
      (acc.1 ++ rom_menu_item (rom_display_name ctx p.2),
       acc.2 ++ rom_selection_item p.1 p.2.id (rom_display_name ctx p.2)))
    ("", "")

def rom_menu_items (ctx : AromaCtx) : String := (rom_items ctx).1

def rom_selection_items (ctx : AromaCtx) : String := (rom_items ctx).2

/-- `format("%d", 2 + 1)`. -/
def first_index : String := Nat.repr (2 + 1)

/-- `format("%zu", 2 + roms.roms.size())`. -/
def last_index (ctx : AromaCtx) : String := Nat.repr (2 + ctx.roms.length)

/-- The ordered replacement chain of `generate_aroma_config`. -/
def generate_aroma_config (ctx : AromaCtx) (str_data : String) : String :=
  replace_all
    (replace_all
      (replace_all
        (replace_all
          (replace_all
            (replace_all
              (replace_all
                (replace_all
                  (replace_all
                    (replace_all str_data "\t" "\\t")
                    "@MBTOOL_VERSION@" ctx.version)
                  "@ROM_MENU_ITEMS@" (rom_menu_items ctx))
                "@ROM_SELECTION_ITEMS@" (rom_selection_items ctx))
              "@FIRST_INDEX@" first_index)
            "@LAST_INDEX@" (last_index ctx))
          "@SYSTEM_MOUNT_POINT@" ctx.system_partition)
        "@CACHE_MOUNT_POINT@" ctx.cache_partition)
      "@DATA_MOUNT_POINT@" ctx.data_partition)
    "@EXTSD_MOUNT_POINT@" ctx.extsd_partition

/-- Concatenation of a list of strings in order. -/
def str_concat : List String → String
  | [] => ""
  | s :: rest => s ++ str_concat rest

theorem foldl_append_pair {α : Type} (f g : α → String) (l : List α)
    (a b : String) :
    l.foldl (fun acc x => (acc.1 ++ f x, acc.2 ++ g x)) (a, b)
      = (a ++ str_concat (l.map f), b ++ str_concat (l.map g)) := by
  induction l generalizing a b with
  | nil => simp [str_concat]
  | cons x xs ih => simp [str_concat, ih, String.append_assoc]

theorem rom_items_eq (ctx : AromaCtx) :
    rom_items ctx
      = (str_concat (ctx.roms.enum.map
          (fun p => rom_menu_item (rom_display_name ctx p.2))),
         str_concat (ctx.roms.enum.map
          (fun p =>
            rom_selection_item p.1 p.2.id (rom_display_name ctx p.2)))) := by
  unfold rom_items
  rw [foldl_append_pair]
  simp

/-- C5: `@ROM_MENU_ITEMS@` expands to one line per installed ROM in
discovery order — quoted display name, empty quoted string, `@default`,
comma, newline — and `@ROM_SELECTION_ITEMS@` to one conditional block per
ROM at zero-based index `i` comparing the fixed status property to the
decimal form of `i + 3` and setting the two variables to the ROM id and the
display name; the display name is the loaded configuration name when the
config loads successfully with a nonempty name, else the ROM id. -/
theorem aroma_items_spec (ctx : AromaCtx) :
    rom_menu_items ctx
      = str_concat (ctx.roms.map (fun rom =>
          "\"" ++ rom_display_name ctx rom ++ "\", \"\", \"@default\",\n"))
    ∧ rom_selection_items ctx
      = str_concat (ctx.roms.enum.map (fun p =>
          "if prop(\"operations.prop\", \"selected\") == \""
            ++ Nat.repr (p.1 + 3) ++ "\" then\n    setvar(\"romid\", \""
            ++ p.2.id ++ "\");\n    setvar(\"romname\", \""
            ++ rom_display_name ctx p.2 ++ "\");\nendif;\n"))
    ∧ (∀ rom config, ctx.load_config rom.config_path = some config →
        config.name ≠ "" → rom_display_name ctx rom = config.name)
    ∧ (∀ rom config, ctx.load_config rom.config_path = some config →
        config.name = "" → rom_display_name ctx rom = rom.id)
    ∧ (∀ rom, ctx.load_config rom.config_path = none →
        rom_display_name ctx rom = rom.id) := by
  refine ⟨?_, ?_, ?_, ?_, ?_⟩
  · unfold rom_menu_items
    rw [rom_items_eq]
    show str_concat (ctx.roms.enum.map
      ((fun rom => rom_menu_item (rom_display_name ctx rom)) ∘ Prod.snd)) = _
    rw [← List.map_map, List.enum_map_snd]
    simp [rom_menu_item]
  · unfold rom_selection_items
    rw [rom_items_eq]
    congr 1
  · intro rom config hload hne
    simp [rom_display_name, hload, hne]
  · intro rom config hload he
    simp [rom_display_name, hload, he]
  · intro rom hload
    simp [rom_display_name, hload]

/-- Witness for C5 at a concrete input: two ROMs without config names use
their own identifiers, and the expansion instantiates at indices 0 and 1
(compared values 3 and 4). -/
theorem aroma_items_spec_witness :
    rom_selection_items
      { version := "v", roms := [⟨"rom1", "p1"⟩, ⟨"rom2", "p2"⟩],
        load_config := fun _ => none, system_partition := "/system",
        cache_partition := "/cache", data_partition := "/data",
        extsd_partition := "/extsd" }
      = "if prop(\"operations.prop\", \"selected\") == \"3\" then\n    setvar(\"romid\", \"rom1\");\n    setvar(\"romname\", \"rom1\");\nendif;\nif prop(\"operations.prop\", \"selected\") == \"4\" then\n    setvar(\"romid\", \"rom2\");\n    setvar(\"romname\", \"rom2\");\nendif;\n" :=
  ((aroma_items_spec
    { version := "v", roms := [⟨"rom1", "p1"⟩, ⟨"rom2", "p2"⟩],
      load_config := fun _ => none, system_partition := "/system",
      cache_partition := "/cache", data_partition := "/data",
      extsd_partition := "/extsd" }).2.1).trans (by decide)

/-- C6: `@FIRST_INDEX@` substitutes to the literal `3`, `@LAST_INDEX@` to
the decimal form of `2 + (number of installed ROMs)`, and with zero
installed ROMs the control-file text `@FIRST_INDEX@,@LAST_INDEX@`
substitutes to `3,2`. -/
theorem aroma_index_substitution (ctx : AromaCtx) (h : ctx.roms = []) :
    first_index = "3"
    ∧ (∀ ctx2 : AromaCtx, last_index ctx2 = Nat.repr (2 + ctx2.roms.length))
    ∧ generate_aroma_config ctx "@FIRST_INDEX@,@LAST_INDEX@" = "3,2" := by
  refine ⟨rfl, fun ctx2 => rfl, ?_⟩
  have hl : last_index ctx = "2" := by
    unfold last_index
    rw [h]
    rfl
  unfold generate_aroma_config
  rw [replace_all_id _ "\t" _ (by decide)]
  rw [replace_all_id _ "@MBTOOL_VERSION@" _ (by decide)]
  rw [replace_all_id _ "@ROM_MENU_ITEMS@" _ (by decide)]
  rw [replace_all_id _ "@ROM_SELECTION_ITEMS@" _ (by decide)]
  rw [show replace_all "@FIRST_INDEX@,@LAST_INDEX@" "@FIRST_INDEX@"
    first_index = "3,@LAST_INDEX@" from by decide]
  rw [hl]
  rw [show replace_all "3,@LAST_INDEX@" "@LAST_INDEX@" "2" = "3,2" from by
    decide]
  rw [replace_all_id _ "@SYSTEM_MOUNT_POINT@" _ (by decide)]
  rw [replace_all_id _ "@CACHE_MOUNT_POINT@" _ (by decide)]
  rw [replace_all_id _ "@DATA_MOUNT_POINT@" _ (by decide)]
  rw [replace_all_id _ "@EXTSD_MOUNT_POINT@" _ (by decide)]

/-- Witness for C6 at a concrete input with zero installed ROMs. -/
theorem aroma_index_substitution_witness :
    generate_aroma_config
      { version := "8.99.15", roms := [], load_config := fun _ => none,
        system_partition := "/system", cache_partition := "/cache",
        data_partition := "/data", extsd_partition := "/extsd" }
      "@FIRST_INDEX@,@LAST_INDEX@" = "3,2" :=
  (aroma_index_substitution
    { version := "8.99.15", roms := [], load_config := fun _ => none,
      system_partition := "/system", cache_partition := "/cache",
      data_partition := "/data", extsd_partition := "/extsd" } rfl).2.2

/-! ### Installer-archive building (`AromaGenerator`) -/

/-- The fixed control-file template path tested in `on_reached_file`. -/
def control_file_in : String := "META-INF/com/google/android/aroma-config.in"

/-- The fixed output path the rewritten control file is stored under. -/
def control_file_out : String := "META-INF/com/google/android/aroma-config"

/-- The zip64 threshold `(1ull << 32) - 1` from `add_file`. -/
def zip64_threshold : Nat := 4294967295

/-- An entry written to the output zip: entry name, payload, and the
`zip_fileinfo` metadata the source sets — `dos_date` (zeroed by `memset`
and never set) and `external_fa` — plus the zip64 flag passed to
`zipOpenNewFileInZip2_64`. -/
structure ZipEntry where
  name : String
  contents : String
  dos_date : Nat
  external_fa : Nat
  zip64 : Bool
deriving DecidableEq

/-- The chunked read loop of `add_file(name, path)`: repeatedly read up to
`bufsize` bytes and write each chunk.  Fuel-indexed; the fuel is always
instantiated with the length of the data, which suffices because every
iteration with a positive `bufsize` consumes at least one element. -/
def read_chunks_aux (bufsize : Nat) : Nat → List Char → List (List Char)
  | _, [] => []
  | 0, l => [l]
  | fuel + 1, c :: rest =>
    (c :: rest).take bufsize :: read_chunks_aux bufsize fuel
      ((c :: rest).drop bufsize)

/-- The sequence of chunks the streaming loop writes for given data. -/
def read_chunks (bufsize : Nat) (l : List Char) : List (List Char) :=
  read_chunks_aux bufsize l.length l

theorem read_chunks_aux_join (bufsize fuel : Nat) (l : List Char) :
    (read_chunks_aux bufsize fuel l).flatten = l := by
  induction fuel generalizing l with
  | zero =>
    cases l with
    | nil => rfl
    | cons c rest => simp [read_chunks_aux]
  | succ fuel ih =>
    cases l with
    | nil => rfl
    | cons c rest =>
      simp [read_chunks_aux, ih, List.take_append_drop]

theorem read_chunks_join (bufsize : Nat) (l : List Char) :
    (read_chunks bufsize l).flatten = l :=
  read_chunks_aux_join bufsize l.length l

theorem read_chunks_aux_length (bufsize fuel : Nat) (hbuf : 0 < bufsize)
    (l : List Char) (hfuel : l.length ≤ fuel) :
    ∀ c ∈ read_chunks_aux bufsize fuel l, c.length ≤ bufsize := by
  induction fuel generalizing l with
  | zero =>
    have : l = [] := List.eq_nil_of_length_eq_zero (Nat.le_zero.mp hfuel)
    subst this
    simp [read_chunks_aux]
  | succ fuel ih =>
    cases l with
    | nil => simp [read_chunks_aux]
    | cons c rest =>
      intro ch hch
      rcases List.mem_cons.mp hch with rfl | hch'
      · exact List.length_take_le bufsize (c :: rest)
      · refine ih ((c :: rest).drop bufsize) ?_ ch hch'
        have hlen : ((c :: rest).drop bufsize).length
            = (c :: rest).length - bufsize := List.length_drop bufsize _
        have : (c :: rest).length - bufsize ≤ fuel := by
          have hl : (c :: rest).length ≤ fuel + 1 := hfuel
          omega
        omega

/-- The in-memory `add_file` overload used for the rewritten control file:
`zip_fileinfo` fully zeroed (so `external_fa = 0`), payload written with a
single `zipWriteInFileInZip` call. -/
def memory_zip_entry (name : String) (contents : String) : ZipEntry :=
  { name := name
    contents := contents
    dos_date := 0
    external_fa := 0
    zip64 := decide (zip64_threshold ≤ contents.length) }

/-- The streaming `add_file` overload used for every other regular file:
`zip_fileinfo` zeroed except `external_fa = (st_mode & 0777) << 16`, payload
streamed in chunks of 32768 bytes. -/
def file_zip_entry (name : String) (contents : String) (mode : Nat) :
    ZipEntry :=
  { name := name
    contents := String.mk (read_chunks 32768 contents.data).flatten
    dos_date := 0
    external_fa := (mode &&& 0o777) <<< 16
    zip64 := decide (zip64_threshold ≤ contents.length) }

/-- A filesystem object reached during the fts traversal, relative to the
template root.  For a regular file, `readable = false` embeds any of the
open/stat/read failures of the source (`file_read_all`, `open64`, `fstat`,
`read`). -/
inductive FtsEntry where
  | file (relpath : String) (contents : String) (mode : Nat)
      (readable : Bool)
  | symlink (relpath : String)
  | special (relpath : String)
deriving DecidableEq

/-- Outcome of one traversal callback: `ok (some z)` adds entry `z`,
`ok none` adds nothing (`Action::Ok` after a log-only skip), `fail` is
`Action::Fail`. -/
inductive EntryResult where
  | ok : Option ZipEntry → EntryResult
  | fail : EntryResult
deriving DecidableEq

/-- `AromaGenerator::on_reached_file`: the control-file template is fully
read, substituted, and stored under `control_file_out`; every other regular
file is streamed under its own relative path; a read failure fails the
entry. -/
def on_reached_file (ctx : AromaCtx) (relpath contents : String)
    (mode : Nat) (readable : Bool) : EntryResult :=
  if relpath = control_file_in then
    if readable then
      EntryResult.ok (some (memory_zip_entry control_file_out
        (generate_aroma_config ctx contents)))
    else
      EntryResult.fail
  else
    if readable then
      EntryResult.ok (some (file_zip_entry relpath contents mode))
    else
      EntryResult.fail

/-- Dispatch of one traversal event to the `AromaGenerator` callbacks:
`on_reached_symlink` and `on_reached_special_file` log and return
`Action::Ok` without writing anything. -/
def process_entry (ctx : AromaCtx) : FtsEntry → EntryResult
  | FtsEntry.file relpath contents mode readable =>
      on_reached_file ctx relpath contents mode readable
  | FtsEntry.symlink _ => EntryResult.ok none
  | FtsEntry.special _ => EntryResult.ok none

/-- Modelled from the spec: the `util::FtsWrapper` traversal driver
(mbutil, not under `src/`) visits entries in order and collects the archive
entries; per the spec a failing entry aborts traversal with a reported
error (fail-fast), while skipped entries leave it running.  Returns the
written entries and the traversal success flag. -/
def run_entries (ctx : AromaCtx) : List FtsEntry → List ZipEntry × Bool
  | [] => ([], true)
  | e :: rest =>
    match process_entry ctx e with
    | EntryResult.fail => ([], false)
    | EntryResult.ok none => run_entries ctx rest
    | EntryResult.ok (some z) =>
      let r := run_entries ctx rest
      (z :: r.1, r.2)

/-- `AromaGenerator::on_post_execute`: ignores the traversal success flag
and returns whether `zipClose` succeeded (`close_ok` embeds
`zipClose(_zf, nullptr) == ZIP_OK`). -/
def on_post_execute (close_ok : Bool) (_success : Bool) : Bool := close_ok

/-- Result of a whole build: written entries, the traversal flag, whether
the archive handle was finalized, and the overall boolean result. -/
structure BuildResult where
  entries : List ZipEntry
  traversal_ok : Bool
  closed : Bool
  ok : Bool
deriving DecidableEq

/-- Modelled from the spec: the driver around `on_pre_execute` /
`on_post_execute` (mbutil `FtsWrapper::run`, not under `src/`).  Per the
spec, the archive is opened before traversal (a failed open aborts with
nothing to finalize), the archive is finalized when traversal completes
regardless of per-entry outcomes, and the overall result is the
conjunction of the traversal flag and the `on_post_execute` result. -/
def run_build (ctx : AromaCtx) (open_ok close_ok : Bool)
    (tree : List FtsEntry) : BuildResult :=
  if open_ok then
    let r := run_entries ctx tree
    { entries := r.1, traversal_ok := r.2, closed := true,
      ok := r.2 && on_post_execute close_ok r.2 }
  else
    { entries := [], traversal_ok := false, closed := false, ok := false }

theorem mem_run_entries (ctx : AromaCtx) (tree : List FtsEntry)
    (z : ZipEntry) (h : z ∈ (run_entries ctx tree).1) :
    ∃ e ∈ tree, process_entry ctx e = EntryResult.ok (some z) := by
  induction tree with
  | nil => simp [run_entries] at h
  | cons e rest ih =>
    cases hp : process_entry ctx e with
    | fail =>
      rw [run_entries, hp] at h
      simp at h
    | ok oz =>
      cases oz with
      | none =>
        rw [run_entries, hp] at h
        obtain ⟨e', he', hpe'⟩ := ih h
        exact ⟨e', List.mem_cons_of_mem e he', hpe'⟩
      | some z' =>
        rw [run_entries, hp] at h
        rcases List.mem_cons.mp h with rfl | h'
        · exact ⟨e, by simp, hp⟩
        · obtain ⟨e', he', hpe'⟩ := ih h'
          exact ⟨e', List.mem_cons_of_mem e he', hpe'⟩

theorem run_entries_complete (ctx : AromaCtx) (tree : List FtsEntry)
    (h : (run_entries ctx tree).2 = true) :
    ∀ e ∈ tree, ∀ z, process_entry ctx e = EntryResult.ok (some z) →
      z ∈ (run_entries ctx tree).1 := by
  induction tree with
  | nil => simp
  | cons e rest ih =>
    intro e' he' z hz
    cases hp : process_entry ctx e with
    | fail =>
      rw [run_entries, hp] at h
      simp at h
    | ok oz =>
      rcases List.mem_cons.mp he' with rfl | he''
      · rw [hp] at hz
        injection hz with hz
        subst hz
        rw [run_entries, hp]
        simp
      · have hrest : (run_entries ctx rest).2 = true := by
          cases oz with
          | none => rw [run_entries, hp] at h; exact h
          | some z' => rw [run_entries, hp] at h; exact h
        have hmem := ih hrest e' he'' z hz
        cases oz with
        | none => rw [run_entries, hp]; exact hmem
        | some z' => rw [run_entries, hp]; exact List.mem_cons_of_mem z' hmem

/-- A concrete substitution context used by the witnesses below. -/
def cAroma : AromaCtx :=
  { version := "9.0.0", roms := [], load_config := fun _ => none,
    system_partition := "/system", cache_partition := "/cache",
    data_partition := "/data", extsd_partition := "/extsd" }

/-- C4: the control-file template is read whole, template-substituted and
written under the fixed output path with the `.in` suffix removed; no entry
of any build is ever named with the original `.in` relative path. -/
theorem control_file_rewritten (ctx : AromaCtx) (open_ok close_ok : Bool)
    (tree : List FtsEntry) :
    (∀ z ∈ (run_build ctx open_ok close_ok tree).entries,
      z.name ≠ control_file_in)
    ∧ (∀ contents mode,
        FtsEntry.file control_file_in contents mode true ∈ tree →
        (run_build ctx open_ok close_ok tree).traversal_ok = true →
        memory_zip_entry control_file_out
            (generate_aroma_config ctx contents)
          ∈ (run_build ctx open_ok close_ok tree).entries) := by
  constructor
  · intro z hz
    cases open_ok with
    | false => simp [run_build] at hz
    | true =>
      have hz' : z ∈ (run_entries ctx tree).1 := by
        simpa [run_build] using hz
      obtain ⟨e, _, hpe⟩ := mem_run_entries ctx tree z hz'
      cases e with
      | file relpath contents mode readable =>
        cases readable with
        | false =>
          by_cases hrel : relpath = control_file_in <;>
            simp [process_entry, on_reached_file, hrel] at hpe
        | true =>
          by_cases hrel : relpath = control_file_in
          · have hmem : memory_zip_entry control_file_out
                (generate_aroma_config ctx contents) = z := by
              simpa [process_entry, on_reached_file, hrel] using hpe
            rw [← hmem]
            show control_file_out ≠ control_file_in
            decide
          · have hmem : file_zip_entry relpath contents mode = z := by
              simpa [process_entry, on_reached_file, hrel] using hpe
            rw [← hmem]
            show relpath ≠ control_file_in
            exact hrel
      | symlink p => simp [process_entry] at hpe
      | special p => simp [process_entry] at hpe
  · intro contents mode hmem htrav
    cases open_ok with
    | false => simp [run_build] at htrav
    | true =>
      have htrav' : (run_entries ctx tree).2 = true := by
        simpa [run_build] using htrav
      have hres := run_entries_complete ctx tree htrav'
        (FtsEntry.file control_file_in contents mode true) hmem
        (memory_zip_entry control_file_out
          (generate_aroma_config ctx contents))
        (by simp [process_entry, on_reached_file])
      simpa [run_build] using hres

/-- Witness for C4 at a concrete input: a build over a template tree whose
only file is the control template stores its substituted content under the
output path. -/
theorem control_file_rewritten_witness :
    memory_zip_entry control_file_out
        (generate_aroma_config cAroma "@FIRST_INDEX@")
      ∈ (run_build cAroma true true
          [FtsEntry.file control_file_in "@FIRST_INDEX@" 0o644
            true]).entries :=
  (control_file_rewritten cAroma true true
    [FtsEntry.file control_file_in "@FIRST_INDEX@" 0o644 true]).2
    "@FIRST_INDEX@" 0o644 (by decide) (by decide)

/-- C7: after a successful open the archive handle is finalized on every
exit path, whatever the per-entry outcomes, and the overall build result is
success exactly when both the traversal succeeded and the finalization
succeeded. -/
theorem archive_always_finalized (ctx : AromaCtx) (close_ok : Bool)
    (tree : List FtsEntry) (open_ok : Bool) (h : open_ok = true) :
    (run_build ctx open_ok close_ok tree).closed = true
    ∧ ((run_build ctx open_ok close_ok tree).ok = true ↔
        (run_build ctx open_ok close_ok tree).traversal_ok = true
          ∧ close_ok = true) := by
  subst h
  refine ⟨by simp [run_build], ?_⟩
  simp [run_build, on_post_execute, Bool.and_eq_true]

/-- Witness for C7 at a concrete input: an unreadable control-file source
fails the build, yet the archive is still finalized. -/
theorem archive_always_finalized_witness :
    (run_build cAroma true true
      [FtsEntry.file control_file_in "x" 0o644 false]).closed = true
    ∧ (run_build cAroma true true
      [FtsEntry.file control_file_in "x" 0o644 false]).ok = false :=
  ⟨(archive_always_finalized cAroma true
      [FtsEntry.file control_file_in "x" 0o644 false] true rfl).1,
   by decide⟩

/-- C8: a symlink or special filesystem object produces no archive entry
and never aborts the build — its callback yields `Action::Ok` with nothing
written, and inserting one anywhere in the traversal changes neither the
written entries nor the traversal flag. -/
theorem symlink_special_skipped (ctx : AromaCtx) (t1 t2 : List FtsEntry)
    (p : String) (e : FtsEntry)
    (h : e = FtsEntry.symlink p ∨ e = FtsEntry.special p) :
    process_entry ctx e = EntryResult.ok none
    ∧ run_entries ctx (t1 ++ e :: t2) = run_entries ctx (t1 ++ t2) := by
  have hp : process_entry ctx e = EntryResult.ok none := by
    rcases h with rfl | rfl <;> rfl
  refine ⟨hp, ?_⟩
  induction t1 with
  | nil => simp only [List.nil_append, run_entries, hp]
  | cons f t1 ih =>
    simp only [List.cons_append, run_entries]
    cases hf : process_entry ctx f with
    | fail => rfl
    | ok oz =>
      cases oz with
      | none => exact ih
      | some z => exact congrArg (fun r => (z :: r.1, r.2)) ih

/-- Witness for C8 at a concrete input: a symlink adds nothing to the
traversal outcome. -/
theorem symlink_special_skipped_witness :
    run_entries cAroma [FtsEntry.symlink "lnk"] = run_entries cAroma [] :=
  (symlink_special_skipped cAroma [] [] "lnk" (FtsEntry.symlink "lnk")
    (Or.inl rfl)).2

/-- C9: every regular file other than the control template is streamed in
chunks of at most 32768 bytes whose concatenation is exactly the file
content, into an entry at its own relative path whose external-attributes
field records the POSIX permission bits `st_mode & 0777` (recoverable by
shifting back); a build over one such file yields exactly that entry and
succeeds. -/
theorem regular_file_streamed (ctx : AromaCtx) (relpath contents : String)
    (mode : Nat) (hrel : relpath ≠ control_file_in) :
    on_reached_file ctx relpath contents mode true
      = EntryResult.ok (some (file_zip_entry relpath contents mode))
    ∧ (file_zip_entry relpath contents mode).contents = contents
    ∧ (∀ c ∈ read_chunks 32768 contents.data, c.length ≤ 32768)
    ∧ (file_zip_entry relpath contents mode).name = relpath
    ∧ (file_zip_entry relpath contents mode).external_fa
        = (mode % 512) <<< 16
    ∧ (file_zip_entry relpath contents mode).external_fa >>> 16
        = mode % 512
    ∧ run_build ctx true true [FtsEntry.file relpath contents mode true]
      = { entries := [file_zip_entry relpath contents mode],
          traversal_ok := true, closed := true, ok := true } := by
  have hmod : mode &&& 0o777 = mode % 512 := by
    have h9 := Nat.and_pow_two_sub_one_eq_mod mode 9
    norm_num at h9
    exact h9
  refine ⟨by simp [on_reached_file, hrel], ?_, ?_, rfl, ?_, ?_, ?_⟩
  · show String.mk (read_chunks 32768 contents.data).flatten = contents
    rw [read_chunks_join]
  · exact read_chunks_aux_length 32768 contents.data.length (by norm_num)
      contents.data (Nat.le_refl _)
  · show (mode &&& 0o777) <<< 16 = (mode % 512) <<< 16
    rw [hmod]
  · show ((mode &&& 0o777) <<< 16) >>> 16 = mode % 512
    rw [hmod]
    omega
  · simp [run_build, run_entries, process_entry, on_reached_file, hrel,
      on_post_execute]

/-- Witness for C9 at the concrete input of spec §8: one file `a.txt` with
content `hi` and permission bits `644` yields exactly one entry `a.txt`,
content `hi`, permissions `644` in the external-attributes field. -/
theorem regular_file_streamed_witness :
    run_build cAroma true true [FtsEntry.file "a.txt" "hi" 0o644 true]
      = { entries := [⟨"a.txt", "hi", 0, 0o644 <<< 16, false⟩],
          traversal_ok := true, closed := true, ok := true } :=
  ((regular_file_streamed cAroma "a.txt" "hi" 0o644
    (by decide)).2.2.2.2.2.2).trans (by decide)

/-- C10: the rewritten control-file entry is written with fully zeroed
`zip_fileinfo` metadata — in particular zero external attributes, whatever
the template file's mode — in contrast to every other regular file, whose
entry records `(st_mode & 0777) << 16` in the external-attributes field;
moreover the never-assigned `dos_date` metadata is zero for every entry of
every build. -/
theorem control_entry_metadata_zero (ctx : AromaCtx) :
    (∀ contents mode readable z,
      process_entry ctx
          (FtsEntry.file control_file_in contents mode readable)
        = EntryResult.ok (some z) →
      z = memory_zip_entry control_file_out
            (generate_aroma_config ctx contents)
        ∧ z.external_fa = 0 ∧ z.dos_date = 0)
    ∧ (∀ relpath contents mode readable z, relpath ≠ control_file_in →
      process_entry ctx (FtsEntry.file relpath contents mode readable)
        = EntryResult.ok (some z) →
      z = file_zip_entry relpath contents mode
        ∧ z.external_fa = (mode &&& 0o777) <<< 16)
    ∧ (∀ open_ok close_ok tree z,
      z ∈ (run_build ctx open_ok close_ok tree).entries → z.dos_date = 0) := by
  refine ⟨?_, ?_, ?_⟩
  · intro contents mode readable z hz
    cases readable with
    | false => simp [process_entry, on_reached_file] at hz
    | true =>
      have hmem : memory_zip_entry control_file_out
          (generate_aroma_config ctx contents) = z := by
        simpa [process_entry, on_reached_file] using hz
      exact ⟨hmem.symm, by rw [← hmem]; rfl, by rw [← hmem]; rfl⟩
  · intro relpath contents mode readable z hrel hz
    cases readable with
    | false => simp [process_entry, on_reached_file, hrel] at hz
    | true =>
      have hmem : file_zip_entry relpath contents mode = z := by
        simpa [process_entry, on_reached_file, hrel] using hz
      exact ⟨hmem.symm, by rw [← hmem]; rfl⟩
  · intro open_ok close_ok tree z hz
    cases open_ok with
    | false => simp [run_build] at hz
    | true =>
      have hz' : z ∈ (run_entries ctx tree).1 := by
        simpa [run_build] using hz
      obtain ⟨e, _, hpe⟩ := mem_run_entries ctx tree z hz'
      cases e with
      | file relpath contents mode readable =>
        cases readable with
        | false =>
          by_cases hrel : relpath = control_file_in <;>
            simp [process_entry, on_reached_file, hrel] at hpe
        | true =>
          by_cases hrel : relpath = control_file_in
          · have hmem : memory_zip_entry control_file_out
                (generate_aroma_config ctx contents) = z := by
              simpa [process_entry, on_reached_file, hrel] using hpe
            rw [← hmem]
            rfl
          · have hmem : file_zip_entry relpath contents mode = z := by
              simpa [process_entry, on_reached_file, hrel] using hpe
            rw [← hmem]
            rfl
      | symlink p => simp [process_entry] at hpe
      | special p => simp [process_entry] at hpe

/-- Witness for C10 at a concrete input: even for a control template with
mode `0777`, the rewritten entry's external attributes are zero. -/
theorem control_entry_metadata_zero_witness :
    (memory_zip_entry control_file_out
      (generate_aroma_config cAroma "x")).external_fa = 0 :=
  ((control_entry_metadata_zero cAroma).1 "x" 0o777 true
    (memory_zip_entry control_file_out (generate_aroma_config cAroma "x"))
    (by decide)).2.1

end DBP
